import Mathlib

/-!
Verification of the green-thread runtime in `src/chap6/mult/src/green.rs`.

The runtime is a single-OS-thread cooperative scheduler.  Its state lives
in `static mut` globals: `CTX_MAIN` (saved main register context),
`UNUSED_STACK` (a single retired-stack slot, null pointer when empty),
`CONTEXTS` (the run queue, a `LinkedList<Box<Context>>`), and three raw
pointers `ID`, `MESSAGES`, `WAITING` that are null before bootstrap.

The shallow embedding below models:
- `HashMap<u64, V>` as an association list `List (Nat × V)` whose keys are
  kept distinct by the operations (insert replaces an existing binding,
  remove drops it);
- `HashSet<u64>` as a `List Nat` used up to membership;
- `LinkedList<T>` as `List T` (front = head);
- raw pointers that may be null as `Option`;
- the `rand::random::<u64>()` oracle of `get_id` as an explicit list of
  candidate draws;
- the memory allocator's returned stack pointer as an explicit argument
  (the allocator contract guarantees a `PAGE_SIZE`-aligned block, so the
  `mprotect` of the first page succeeds and is modelled as succeeding);
- `panic!` / `.unwrap()` failures as explicit error values.

The machine-level `set_context` / `switch_context` pair cannot execute in a
pure model; a call site that saves registers and switches is recorded as an
explicit action value (`SwitchAction`, `EpTarget`) describing which context
was saved and which context control transfers into.
-/

/-- Association-list lookup, modelling `HashMap::get` / `get_mut`
(first binding for the key wins; the runtime keeps keys distinct). -/
def mapLookup {α : Type} : List (Nat × α) → Nat → Option α
  | [], _ => none
  | (k, v) :: rest, key => if k = key then some v else mapLookup rest key

/-- Replace the binding of `key` (first occurrence) by `val`, modelling an
in-place `HashMap` update through `get_mut`. -/
def mapUpdate {α : Type} : List (Nat × α) → Nat → α → List (Nat × α)
  | [], _, _ => []
  | (k, v) :: rest, key, val =>
    if k = key then (k, val) :: rest else (k, v) :: mapUpdate rest key val

/-- Drop the binding of `key` (first occurrence), modelling `HashMap::remove`. -/
def mapRemove {α : Type} : List (Nat × α) → Nat → List (Nat × α)
  | [], _ => []
  | (k, v) :: rest, key =>
    if k = key then rest else (k, v) :: mapRemove rest key

/-- The keys of an association list are pairwise distinct (every state the
runtime builds from `HashMap` operations satisfies this). -/
def keysNodup {α : Type} (m : List (Nat × α)) : Prop :=
  (m.map Prod.fst).Nodup

/-- `struct MappedList<T> { map: HashMap<u64, LinkedList<T>> }`
(green.rs lines 84-87): the per-identity mailbox map. -/
structure MappedList (T : Type) where
  map : List (Nat × List T)
deriving DecidableEq

/-- `MappedList::new` (green.rs lines 90-94). -/
def MappedList.new {T : Type} : MappedList T := ⟨[]⟩

/-- `MappedList::push_back` (green.rs lines 97-107): append `val` at the tail
of `key`'s list, creating the list on demand when `key` is absent. -/
def MappedList.push_back {T : Type} (ml : MappedList T) (key : Nat) (val : T) :
    MappedList T :=
  match mapLookup ml.map key with
  | some list => ⟨mapUpdate ml.map key (list ++ [val])⟩
  | none => ⟨ml.map ++ [(key, [val])]⟩

/-- `MappedList::pop_front` (green.rs lines 110-120): take the head of
`key`'s list; when the list becomes empty (`list.len() == 0`) the map entry
is removed.  Returns the popped value together with the updated map. -/
def MappedList.pop_front {T : Type} (ml : MappedList T) (key : Nat) :
    Option T × MappedList T :=
  match mapLookup ml.map key with
  | some list =>
    if list.tail.length = 0 then (list.head?, ⟨mapRemove ml.map key⟩)
    else (list.head?, ⟨mapUpdate ml.map key list.tail⟩)
  | none => (none, ml)

/-- `MappedList::clear` (green.rs lines 122-124). -/
def MappedList.clear {T : Type} (_ : MappedList T) : MappedList T := ⟨[]⟩

/-- The messages currently pending for `key` (the list bound to `key`,
empty when the map has no entry for `key`). -/
def pendingMsgs {T : Type} (ml : MappedList T) (key : Nat) : List T :=
  (mapLookup ml.map key).getD []

/-- Iterated `push_back` of a batch of values to one key, in order —
the mailbox effect of a sequence of `send(key, _)` calls. -/
def pushAll {T : Type} (ml : MappedList T) (key : Nat) (msgs : List T) :
    MappedList T :=
  msgs.foldl (fun m v => m.push_back key v) ml

/-- Iterated `pop_front` on one key, collecting the `n` successive results —
the mailbox effect of `n` successive `recv` fast paths by identity `key`. -/
def popAll {T : Type} : MappedList T → Nat → Nat → List (Option T) × MappedList T
  | ml, _, 0 => ([], ml)
  | ml, key, n + 1 =>
    let r := ml.pop_front key
    let rs := popAll r.2 key n
    (r.1 :: rs.1, rs.2)

/-- The `MappedList` states reachable from `new()` by any sequence of
`push_back` and `pop_front` operations. -/
inductive ReachableML : MappedList Nat → Prop where
  | new : ReachableML MappedList.new
  | push (ml : MappedList Nat) (k : Nat) (v : Nat) :
      ReachableML ml → ReachableML (ml.push_back k v)
  | pop (ml : MappedList Nat) (k : Nat) :
      ReachableML ml → ReachableML (ml.pop_front k).2

/-- `PAGE_SIZE` (green.rs line 82): 4 KiB. -/
def PAGE_SIZE : Nat := 4 * 1024

/-- `isize::MAX` on the 64-bit target. -/
def isizeMaxNat : Nat := 2 ^ 63 - 1

/-- Abstract address of the `entry_point` trampoline (`entry_point as u64`,
green.rs line 64); its numeric value is never inspected by the runtime. -/
def entryPointAddr : Nat := 0

/-- `struct Registers` (green.rs lines 41-51): the callee-saved registers
plus `rsp` and the scratch slot `rdx`. -/
structure Registers where
  rbx : Nat
  rbp : Nat
  r12 : Nat
  r13 : Nat
  r14 : Nat
  r15 : Nat
  rsp : Nat
  rdx : Nat
deriving DecidableEq

/-- `Registers::new(rsp)` (green.rs lines 55-66): zero everything except the
stack pointer and `rdx`, which carries the trampoline address. -/
def Registers.new (rsp : Nat) : Registers :=
  ⟨0, 0, 0, 0, 0, 0, rsp, entryPointAddr⟩

/-- `std::alloc::Layout`: a (size, align) descriptor. -/
structure Layout where
  size : Nat
  align : Nat
deriving DecidableEq

/-- `align.is_power_of_two()` for a `usize` alignment: `align = 2 ^ k` for
some `k < 64` (Rust additionally requires `align < 2^63` for layouts, but
the runtime only ever passes `PAGE_SIZE = 2^12`). -/
def isPow2 (n : Nat) : Bool :=
  (List.range 64).any (fun k => n == 2 ^ k)

/-- `Layout::from_size_align(size, align)` (called in green.rs line 151):
errors when `align` is not a power of two or when `size` exceeds
`isize::MAX - (align - 1)`; it does NOT require `size` to be a multiple of
`align`. -/
def layoutFromSizeAlign (size align : Nat) : Option Layout :=
  if isPow2 align = true then
    if size ≤ isizeMaxNat - (align - 1) then some ⟨size, align⟩ else none
  else none

/-- `struct Context` (green.rs lines 128-134): the thread control block.
The entry function pointer `Entry = fn()` is modelled as an abstract label. -/
structure Context where
  regs : Registers
  stack : Nat
  stack_layout : Layout
  entry : Nat
  id : Nat
deriving DecidableEq

/-- `Context::new(func, stack_size, id)` (green.rs lines 146-170).
`stackPtr` is the `PAGE_SIZE`-aligned pointer returned by `alloc(layout)`;
because it is page aligned and points into a mapped block, the
`mprotect(stack, PAGE_SIZE, PROT_NONE).unwrap()` of the guard page succeeds
and is modelled as succeeding.  The only failure point reachable in the
model is `Layout::from_size_align(stack_size, PAGE_SIZE).unwrap()`.
Note the function performs no validation of `stack_size` beyond that layout
check: it builds the context even for sizes that are not page multiples or
that do not exceed the guard page. -/
def contextNew (func : Nat) (stack_size : Nat) (id : Nat) (stackPtr : Nat) :
    Option Context :=
  match layoutFromSizeAlign stack_size PAGE_SIZE with
  | none => none
  | some layout =>
    some { regs := Registers.new (stackPtr + stack_size)
           stack := stackPtr
           stack_layout := layout
           entry := func
           id := id }

/-- The process-wide runtime state: the `static mut` globals of green.rs
(lines 8-23).  Null pointers are `none`; `UNUSED_STACK` with a null first
component is `none`. -/
structure RtState where
  ctx_main : Option Registers
  unused_stack : Option (Nat × Layout)
  contexts : List Context
  ids : Option (List Nat)
  messages : Option (MappedList Nat)
  waiting : Option (List (Nat × Context))
deriving DecidableEq

/-- The pristine state at process start: main context absent, retired-stack
slot empty, run queue empty, and the three global pointers null. -/
def initState : RtState :=
  { ctx_main := none
    unused_stack := none
    contexts := []
    ids := none
    messages := none
    waiting := none }

/-- The distinct fatal conditions of the runtime. -/
inductive RtError where
  /-- `panic!("deadlock")` in `recv` (green.rs line 344). -/
  | deadlock
  /-- an `Option::unwrap()` on `None` (e.g. `CONTEXTS.front().unwrap()`). -/
  | unwrapNone
  /-- dereference of a null global pointer (`ID`, `MESSAGES` or `WAITING`
      before bootstrap): undefined behaviour, modelled as a fault. -/
  | nullDeref
  /-- `panic!("spawn_from_main is called twice")` (green.rs line 262). -/
  | doubleBootstrap
  /-- `panic!("entry_point")`: the trampoline fell through without
      switching (green.rs line 255). -/
  | trampolineFall
deriving DecidableEq

/-- What a schedule point did at the machine level: either it returned at
once without saving registers, or it saved the registers of `saved` via
`set_context` and — `set_context` having returned 0, the fresh-save flag —
switched into `next` via `switch_context`. -/
inductive SwitchAction where
  | noSwitch
  | saveSwitch (saved : Context) (next : Context)
deriving DecidableEq

/-- `schedule()` (green.rs lines 196-219).  Returns `none` when the
`CONTEXTS.pop_front().unwrap()` would panic (empty run queue — unreachable
from any real call site, where the caller itself sits in the queue).
Single-member queue: immediate return, state untouched.  Otherwise the
front context is rotated to the back, its registers are saved, and control
switches into the new front.  (The `rm_unused_stack()` on line 217 runs
only when this context is later resumed; see `rmUnusedStack`.) -/
def schedule (s : RtState) : Option (RtState × SwitchAction) :=
  if s.contexts.length = 1 then some (s, .noSwitch)
  else
    match s.contexts with
    | [] => none
    | ctx :: rest =>
      match (rest ++ [ctx]).head? with
      | none => none
      | some next =>
        some ({ s with contexts := rest ++ [ctx] }, .saveSwitch ctx next)

/-- `get_id()` (green.rs lines 173-184) with the random oracle made
explicit: scan the draws `cands` for the first one absent from the identity
set, insert it and return it.  `none` when the finite oracle is exhausted
(the real loop would just keep drawing). -/
def getId : List Nat → List Nat → Option (Nat × List Nat)
  | [], _ => none
  | rnd :: rest, ids =>
    if rnd ∈ ids then getId rest ids else some (rnd, rnd :: ids)

/-- `spawn(func, stack_size)` (green.rs lines 186-194): draw a fresh id,
push a new context onto the back of the run queue, call `schedule`, return
the id.  `none` covers: null `ID` pointer, oracle exhaustion, layout
failure in `Context::new`, and the unreachable `schedule` panic. -/
def spawn (func stackSize : Nat) (cands : List Nat) (stackPtr : Nat)
    (s : RtState) : Option (Nat × RtState × SwitchAction) :=
  match s.ids with
  | none => none
  | some ids =>
    match getId cands ids with
    | none => none
    | some (id, ids2) =>
      match contextNew func stackSize id stackPtr with
      | none => none
      | some ctx =>
        match schedule { s with ids := some ids2,
                                contexts := s.contexts ++ [ctx] } with
        | none => none
        | some (s2, act) => some (id, s2, act)

/-- A sequence of `spawn` calls, one candidate-draw list per call, returning
the spawned identities in call order together with the final state. -/
def spawnMany (func stackSize stackPtr : Nat) :
    List (List Nat) → RtState → Option (List Nat × RtState)
  | [], s => some ([], s)
  | cands :: css, s =>
    match spawn func stackSize cands stackPtr s with
    | none => none
    | some (id, s2, _) =>
      match spawnMany func stackSize stackPtr css s2 with
      | none => none
      | some (ids, s3) => some (id :: ids, s3)

/-- `send(key, msg)` (green.rs lines 318-330): append `msg` to `key`'s
mailbox; if a context for `key` sits in the waiting set, move it to the
back of the run queue; then `schedule()`.  `none` only on a null
`MESSAGES`/`WAITING` pointer or the unreachable `schedule` panic. -/
def send (key msg : Nat) (s : RtState) : Option (RtState × SwitchAction) :=
  match s.messages, s.waiting with
  | some ml, some w =>
    match mapLookup w key with
    | some ctx =>
      schedule { s with messages := some (ml.push_back key msg)
                        waiting := some (mapRemove w key)
                        contexts := s.contexts ++ [ctx] }
    | none =>
      schedule { s with messages := some (ml.push_back key msg) }
  | _, _ => none

/-- `HashMap::insert(key, val)`: replace the existing binding of `key`, or
add a new one when `key` is absent. -/
def hmInsert {α : Type} (m : List (Nat × α)) (key : Nat) (val : α) :
    List (Nat × α) :=
  match mapLookup m key with
  | some _ => mapUpdate m key val
  | none => m ++ [(key, val)]

/-- The two non-fatal outcomes of the first phase of `recv()`:
return a message at once (fast path), or suspend the caller into the
waiting set and switch into `next` (the resumed continuation then pops the
now-available message). -/
inductive RecvOut where
  | ret (msg : Nat) (s : RtState)
  | blocked (s : RtState) (next : Context)
deriving DecidableEq

/-- `recv()` (green.rs lines 332-364) up to its switch point: read the
caller's id from the front of the run queue; pop its mailbox and return at
once when a message is pending; `panic!("deadlock")` when there is none and
the caller is the sole runnable thread; otherwise move the caller into the
waiting set keyed by its id, save its registers, and switch into the new
front of the queue. -/
def recv (s : RtState) : Except RtError RecvOut :=
  match s.contexts with
  | [] => .error .unwrapNone
  | front :: rest =>
    match s.messages with
    | none => .error .nullDeref
    | some ml =>
      match ml.pop_front front.id with
      | (some msg, ml2) => .ok (.ret msg { s with messages := some ml2 })
      | (none, _) =>
        if s.contexts.length = 1 then .error .deadlock
        else
          match s.waiting with
          | none => .error .nullDeref
          | some w =>
            match rest with
            | [] => .error .unwrapNone
            | next :: _ =>
              .ok (.blocked { s with contexts := rest
                                     waiting :=
                                       some (hmInsert w front.id front) }
                    next)

/-- A memory-management action performed on a retired stack. -/
inductive MemAction where
  /-- `mprotect(ptr, PAGE_SIZE, PROT_READ | PROT_WRITE)`: restore access to
      the guard page (green.rs lines 306-311). -/
  | unprotect (ptr : Nat)
  /-- `dealloc(ptr, layout)` (green.rs line 313). -/
  | dealloc (ptr : Nat) (layout : Layout)
deriving DecidableEq

/-- `rm_unused_stack()` (green.rs lines 303-316): when the retired-stack
slot holds a pending stack, restore access to its guard page, deallocate
it, and reset the slot to empty; when the slot is empty, do nothing.
It is called at each schedule point: after `set_context` reports a
resumption in `schedule` (line 217) and in `recv` (line 359), and after
control returns to the main context in `spawn_from_main` (line 287). -/
def rmUnusedStack (s : RtState) : RtState × List MemAction :=
  match s.unused_stack with
  | some (ptr, layout) =>
    ({ s with unused_stack := none },
     [MemAction.unprotect ptr, MemAction.dealloc ptr layout])
  | none => (s, [])

/-- Where the trampoline epilogue transferred control. -/
inductive EpTarget where
  | toContext (c : Context)
  | toMain (r : Registers)
deriving DecidableEq

/-- The epilogue of the trampoline `entry_point` (green.rs lines 228-255),
i.e. what runs after `(ctx.entry)()` returns: pop the terminating thread's
own context off the front of the run queue, release its identity, stash its
stack descriptor into the retired-stack slot (the thread cannot free the
stack it still executes on — no `dealloc` happens here), then switch into
the new front of the queue, or into the saved main context when the queue
is empty.  Falling through without a switch target is the fatal
`panic!("entry_point")`. -/
def entryPointFinish (s : RtState) : Except RtError (RtState × EpTarget) :=
  match s.contexts with
  | [] => .error .unwrapNone
  | ctx :: rest =>
    match s.ids with
    | none => .error .nullDeref
    | some ids =>
      let s2 : RtState :=
        { s with contexts := rest
                 ids := some (ids.filter (fun i => i != ctx.id))
                 unused_stack := some (ctx.stack, ctx.stack_layout) }
      match rest with
      | next :: _ => .ok (s2, .toContext next)
      | [] =>
        match s.ctx_main with
        | some r => .ok (s2, .toMain r)
        | none => .error .trampolineFall

/-- Outcome of the bootstrap phase of `spawn_from_main`. -/
inductive BootResult where
  /-- a `panic!` fired with the runtime state as it was at that moment. -/
  | panicked (e : RtError) (s : RtState)
  /-- model artifact: the finite random oracle was exhausted before a fresh
      identity was found (the real loop would keep drawing). -/
  | stuck
  /-- state after initialization, with the context control switched into. -/
  | switched (s : RtState) (first : Context)
deriving DecidableEq

/-- `spawn_from_main(func, stack_size)` up to its switch into the first
green thread (green.rs lines 258-284): panic if `CTX_MAIN` is already set —
checked before anything is modified; otherwise install the main context
and fresh empty mailbox map, waiting set and identity set, save the main
registers, build the first context and switch into the front of the run
queue. -/
def spawnFromMainStart (func stackSize stackPtr : Nat) (cands : List Nat)
    (s : RtState) : BootResult :=
  match s.ctx_main with
  | some _ => .panicked .doubleBootstrap s
  | none =>
    let s1 : RtState :=
      { s with ctx_main := some (Registers.new 0)
               messages := some MappedList.new
               waiting := some []
               ids := some [] }
    match getId cands [] with
    | none => .stuck
    | some (id, ids2) =>
      match contextNew func stackSize id stackPtr with
      | none => .panicked .unwrapNone { s1 with ids := some ids2 }
      | some ctx =>
        match (s1.contexts ++ [ctx]).head? with
        | none => .panicked .unwrapNone { s1 with ids := some ids2 }
        | some first =>
          .switched { s1 with ids := some ids2
                              contexts := s1.contexts ++ [ctx] } first

/-- The teardown phase of `spawn_from_main` (green.rs lines 286-299), run
when the trampoline has switched back into the main context: drain the
retired-stack slot via `rm_unused_stack`, then clear `CTX_MAIN`, empty the
run queue, null the `MESSAGES`, `WAITING` and `ID` pointers, and clear the
(now unreferenced) local collections. -/
def spawnFromMainFinish (s : RtState) : RtState × List MemAction :=
  let r := rmUnusedStack s
  ({ r.1 with ctx_main := none
              contexts := []
              messages := none
              waiting := none
              ids := none },
   r.2)

lemma lookup_update_self {α : Type} (m : List (Nat × α)) (key : Nat)
    (val x : α) (h : mapLookup m key = some x) :
    mapLookup (mapUpdate m key val) key = some val := by
  induction m with
  | nil => simp [mapLookup] at h
  | cons p rest ih =>
    obtain ⟨k, v⟩ := p
    by_cases hk : k = key
    · simp [mapUpdate, mapLookup, hk]
    · simp [mapUpdate, mapLookup, hk] at h ⊢
      exact ih h

lemma lookup_append_of_none {α : Type} (m m2 : List (Nat × α)) (key : Nat)
    (h : mapLookup m key = none) :
    mapLookup (m ++ m2) key = mapLookup m2 key := by
  induction m with
  | nil => simp
  | cons p rest ih =>
    obtain ⟨k, v⟩ := p
    by_cases hk : k = key
    · simp [mapLookup, hk] at h
    · simp [mapLookup, hk] at h ⊢
      exact ih h

lemma lookup_eq_none_iff {α : Type} (m : List (Nat × α)) (key : Nat) :
    mapLookup m key = none ↔ key ∉ m.map Prod.fst := by
  induction m with
  | nil => simp [mapLookup]
  | cons p rest ih =>
    obtain ⟨k, v⟩ := p
    by_cases hk : k = key
    · simp [mapLookup, hk]
    · simp [mapLookup, hk, ih]
      intro h
      exact fun he => hk he.symm

lemma lookup_mem {α : Type} (m : List (Nat × α)) (key : Nat) (v : α)
    (h : mapLookup m key = some v) : (key, v) ∈ m := by
  induction m with
  | nil => simp [mapLookup] at h
  | cons p rest ih =>
    obtain ⟨k, w⟩ := p
    by_cases hk : k = key
    · simp [mapLookup, hk] at h
      simp [hk, h]
    · simp [mapLookup, hk] at h
      exact List.mem_cons_of_mem _ (ih h)

lemma mapUpdate_keys {α : Type} (m : List (Nat × α)) (key : Nat) (val : α) :
    (mapUpdate m key val).map Prod.fst = m.map Prod.fst := by
  induction m with
  | nil => simp [mapUpdate]
  | cons p rest ih =>
    obtain ⟨k, v⟩ := p
    by_cases hk : k = key
    · simp [mapUpdate, hk]
    · simp [mapUpdate, hk, ih]

lemma mapRemove_sublist {α : Type} (m : List (Nat × α)) (key : Nat) :
    (mapRemove m key).Sublist m := by
  induction m with
  | nil => simp [mapRemove]
  | cons p rest ih =>
    obtain ⟨k, v⟩ := p
    by_cases hk : k = key
    · simp only [mapRemove, if_pos hk]
      exact List.sublist_cons_self (k, v) rest
    · simpa [mapRemove, hk] using List.Sublist.cons₂ (k, v) ih

lemma keysNodup_update {α : Type} (m : List (Nat × α)) (key : Nat) (val : α)
    (h : keysNodup m) : keysNodup (mapUpdate m key val) := by
  unfold keysNodup at h ⊢
  rw [mapUpdate_keys]
  exact h

lemma keysNodup_remove {α : Type} (m : List (Nat × α)) (key : Nat)
    (h : keysNodup m) : keysNodup (mapRemove m key) := by
  unfold keysNodup at h ⊢
  exact h.sublist ((mapRemove_sublist m key).map Prod.fst)

lemma lookup_remove_self {α : Type} (m : List (Nat × α)) (key : Nat)
    (h : keysNodup m) : mapLookup (mapRemove m key) key = none := by
  induction m with
  | nil => simp [mapRemove, mapLookup]
  | cons p rest ih =>
    obtain ⟨k, v⟩ := p
    unfold keysNodup at h
    simp only [List.map_cons, List.nodup_cons] at h
    by_cases hk : k = key
    · subst hk
      simp only [mapRemove, if_pos rfl]
      exact (lookup_eq_none_iff rest k).mpr h.1
    · simp [mapRemove, mapLookup, hk]
      exact ih h.2

lemma mapUpdate_mem {α : Type} (m : List (Nat × α)) (key : Nat) (val : α)
    (p : Nat × α) (h : p ∈ mapUpdate m key val) : p ∈ m ∨ p.2 = val := by
  induction m with
  | nil => simp [mapUpdate] at h
  | cons q rest ih =>
    obtain ⟨k, v⟩ := q
    by_cases hk : k = key
    · simp [mapUpdate, hk] at h
      rcases h with h | h
      · right; rw [h]
      · left; exact List.mem_cons_of_mem _ h
    · simp [mapUpdate, hk] at h
      rcases h with h | h
      · left; simp [h]
      · rcases ih h with h2 | h2
        · left; exact List.mem_cons_of_mem _ h2
        · right; exact h2

lemma pending_push {T : Type} (ml : MappedList T) (key : Nat) (v : T) :
    pendingMsgs (ml.push_back key v) key = pendingMsgs ml key ++ [v] := by
  unfold pendingMsgs MappedList.push_back
  cases h : mapLookup ml.map key with
  | some l => simp [h, lookup_update_self ml.map key (l ++ [v]) l h]
  | none => simp [h, lookup_append_of_none ml.map [(key, [v])] key h, mapLookup]

lemma wfkeys_push {T : Type} (ml : MappedList T) (key : Nat) (v : T)
    (h : keysNodup ml.map) : keysNodup (ml.push_back key v).map := by
  unfold MappedList.push_back
  cases hl : mapLookup ml.map key with
  | some l => exact keysNodup_update ml.map key (l ++ [v]) h
  | none =>
    unfold keysNodup at h ⊢
    simp only [List.map_append, List.map_cons, List.map_nil]
    rw [List.nodup_append]
    refine ⟨h, List.nodup_singleton key, ?_⟩
    intro a ha hb
    simp at hb
    subst hb
    exact (lookup_eq_none_iff ml.map a).mp hl ha

lemma pop_fst {T : Type} (ml : MappedList T) (key : Nat) :
    (ml.pop_front key).1 = (pendingMsgs ml key).head? := by
  unfold MappedList.pop_front pendingMsgs
  cases h : mapLookup ml.map key with
  | some l =>
    simp only [h, Option.getD_some]
    split <;> rfl
  | none => simp [h]

lemma pop_pending {T : Type} (ml : MappedList T) (key : Nat)
    (h : keysNodup ml.map) :
    pendingMsgs (ml.pop_front key).2 key = (pendingMsgs ml key).tail := by
  unfold MappedList.pop_front pendingMsgs
  cases hl : mapLookup ml.map key with
  | some l =>
    by_cases ht : l.tail.length = 0
    · simp only [hl, if_pos ht]
      rw [List.length_eq_zero] at ht
      simp [lookup_remove_self ml.map key h, ht]
    · simp only [hl, if_neg ht]
      simp [lookup_update_self ml.map key l.tail l hl]
  | none => simp [hl]

lemma wfkeys_pop {T : Type} (ml : MappedList T) (key : Nat)
    (h : keysNodup ml.map) : keysNodup (ml.pop_front key).2.map := by
  unfold MappedList.pop_front
  cases hl : mapLookup ml.map key with
  | some l =>
    by_cases ht : l.tail.length = 0
    · simp only [hl, if_pos ht]
      exact keysNodup_remove ml.map key h
    · simp only [hl, if_neg ht]
      exact keysNodup_update ml.map key l.tail h
  | none => simp [hl, h]

lemma pending_pushAll {T : Type} (msgs : List T) (ml : MappedList T)
    (key : Nat) :
    pendingMsgs (pushAll ml key msgs) key = pendingMsgs ml key ++ msgs := by
  induction msgs generalizing ml with
  | nil => simp [pushAll]
  | cons v rest ih =>
    show pendingMsgs (pushAll (ml.push_back key v) key rest) key = _
    rw [ih (ml.push_back key v), pending_push]
    simp

lemma wfkeys_pushAll {T : Type} (msgs : List T) (ml : MappedList T)
    (key : Nat) (h : keysNodup ml.map) :
    keysNodup (pushAll ml key msgs).map := by
  induction msgs generalizing ml with
  | nil => simpa [pushAll] using h
  | cons v rest ih =>
    exact ih (ml.push_back key v) (wfkeys_push ml key v h)

lemma popAll_sound {T : Type} (msgs : List T) (ml : MappedList T) (key : Nat)
    (hw : keysNodup ml.map) (hp : pendingMsgs ml key = msgs) :
    (popAll ml key msgs.length).1 = msgs.map some := by
  induction msgs generalizing ml with
  | nil => simp [popAll]
  | cons v rest ih =>
    have h1 : (ml.pop_front key).1 = some v := by
      rw [pop_fst, hp]; rfl
    have h2 : pendingMsgs (ml.pop_front key).2 key = rest := by
      rw [pop_pending ml key hw, hp]; rfl
    simp only [List.length_cons, popAll, h1, List.map_cons]
    rw [ih (ml.pop_front key).2 (wfkeys_pop ml key hw) h2]

/-- The mailbox-map invariant: no key is bound to an empty list. -/
def NoEmptyEntry {T : Type} (ml : MappedList T) : Prop :=
  ∀ p ∈ ml.map, p.2 ≠ []

lemma noEmpty_push {T : Type} (ml : MappedList T) (key : Nat) (v : T)
    (h : NoEmptyEntry ml) : NoEmptyEntry (ml.push_back key v) := by
  unfold MappedList.push_back
  cases hl : mapLookup ml.map key with
  | some l =>
    intro p hp
    rcases mapUpdate_mem ml.map key (l ++ [v]) p hp with h2 | h2
    · exact h p h2
    · rw [h2]; simp
  | none =>
    intro p hp
    simp only at hp
    rcases List.mem_append.mp hp with h2 | h2
    · exact h p h2
    · simp at h2
      rw [h2]; simp

lemma noEmpty_pop {T : Type} (ml : MappedList T) (key : Nat)
    (h : NoEmptyEntry ml) : NoEmptyEntry (ml.pop_front key).2 := by
  unfold MappedList.pop_front
  cases hl : mapLookup ml.map key with
  | some l =>
    by_cases ht : l.tail.length = 0
    · simp only [hl, if_pos ht]
      intro p hp
      exact h p ((mapRemove_sublist ml.map key).mem hp)
    · simp only [hl, if_neg ht]
      intro p hp
      rcases mapUpdate_mem ml.map key l.tail p hp with h2 | h2
      · exact h p h2
      · rw [h2]
        intro he
        rw [he] at ht
        exact ht rfl
  | none => simp only [hl]; exact h

lemma reachable_noEmpty (ml : MappedList Nat) (h : ReachableML ml) :
    NoEmptyEntry ml := by
  induction h with
  | new => intro p hp; simp [MappedList.new] at hp
  | push ml k v _ ih => exact noEmpty_push ml k v ih
  | pop ml k _ ih => exact noEmpty_pop ml k ih

lemma pop_none_iff_no_entry {T : Type} (ml : MappedList T) (key : Nat)
    (h : NoEmptyEntry ml) :
    (ml.pop_front key).1 = none ↔ mapLookup ml.map key = none := by
  rw [pop_fst]
  unfold pendingMsgs
  cases hl : mapLookup ml.map key with
  | some l =>
    have hne : l ≠ [] := h (key, l) (lookup_mem ml.map key l hl)
    simp [List.head?_eq_none_iff, hne]
  | none => simp

lemma getId_spec (cands ids : List Nat) (id : Nat) (ids2 : List Nat)
    (h : getId cands ids = some (id, ids2)) :
    id ∉ ids ∧ ids2 = id :: ids := by
  induction cands with
  | nil => simp [getId] at h
  | cons rnd rest ih =>
    by_cases hm : rnd ∈ ids
    · simp only [getId, if_pos hm] at h
      exact ih h
    · simp only [getId, if_neg hm, Option.some.injEq, Prod.mk.injEq] at h
      rw [← h.1]
      exact ⟨hm, h.2.symm⟩

lemma schedule_ids (s s2 : RtState) (act : SwitchAction)
    (h : schedule s = some (s2, act)) : s2.ids = s.ids := by
  unfold schedule at h
  by_cases h1 : s.contexts.length = 1
  · simp only [if_pos h1, Option.some.injEq, Prod.mk.injEq] at h
    rw [← h.1]
  · simp only [if_neg h1] at h
    match hc : s.contexts with
    | [] => rw [hc] at h; simp at h
    | ctx :: rest =>
      rw [hc] at h
      cases rest with
      | nil =>
        simp only [List.nil_append, List.head?_cons, Option.some.injEq,
          Prod.mk.injEq] at h
        rw [← h.1]
      | cons r rs =>
        simp only [List.cons_append, List.head?_cons, Option.some.injEq,
          Prod.mk.injEq] at h
        rw [← h.1]

lemma schedule_isSome (s : RtState) (h : s.contexts ≠ []) :
    (schedule s).isSome = true := by
  unfold schedule
  by_cases h1 : s.contexts.length = 1
  · simp [if_pos h1]
  · simp only [if_neg h1]
    match hc : s.contexts with
    | [] => exact absurd hc h
    | ctx :: rest =>
      cases rest with
      | nil => simp
      | cons r rs => simp

lemma spawn_step_ids (func stackSize : Nat) (cands : List Nat)
    (stackPtr : Nat) (s : RtState) (id : Nat) (s2 : RtState)
    (act : SwitchAction) (l : List Nat)
    (hs : spawn func stackSize cands stackPtr s = some (id, s2, act))
    (hl : s.ids = some l) :
    id ∉ l ∧ s2.ids = some (id :: l) := by
  unfold spawn at hs
  rw [hl] at hs
  simp only at hs
  match hg : getId cands l with
  | none => rw [hg] at hs; simp at hs
  | some (id1, ids2) =>
    rw [hg] at hs
    simp only at hs
    obtain ⟨hni, hcons⟩ := getId_spec cands l id1 ids2 hg
    match hcn : contextNew func stackSize id1 stackPtr with
    | none => rw [hcn] at hs; simp at hs
    | some ctx =>
      rw [hcn] at hs
      simp only at hs
      match hsc : schedule { s with ids := some ids2,
                                    contexts := s.contexts ++ [ctx] } with
      | none => rw [hsc] at hs; simp at hs
      | some (s3, act3) =>
        rw [hsc] at hs
        simp only [Option.some.injEq, Prod.mk.injEq] at hs
        obtain ⟨hid, hst, _⟩ := hs
        subst hid
        have := schedule_ids _ _ _ hsc
        rw [← hst] at *
        constructor
        · exact hni
        · rw [this, hcons]

lemma spawnMany_ids (func stackSize stackPtr : Nat) (css : List (List Nat))
    (s : RtState) (retIds l : List Nat) (s3 : RtState)
    (hs : spawnMany func stackSize stackPtr css s = some (retIds, s3))
    (hl : s.ids = some l) :
    retIds.Nodup ∧ (∀ i ∈ retIds, i ∉ l) ∧
      s3.ids = some (retIds.reverse ++ l) := by
  induction css generalizing s l retIds s3 with
  | nil =>
    simp only [spawnMany, Option.some.injEq, Prod.mk.injEq] at hs
    rw [← hs.1, ← hs.2]
    exact ⟨List.nodup_nil, by simp, by simpa using hl⟩
  | cons cands css ih =>
    unfold spawnMany at hs
    match h1 : spawn func stackSize cands stackPtr s with
    | none => rw [h1] at hs; simp at hs
    | some (id, s1, act) =>
      rw [h1] at hs
      simp only at hs
      match h2 : spawnMany func stackSize stackPtr css s1 with
      | none => rw [h2] at hs; simp at hs
      | some (ids1, s2) =>
        rw [h2] at hs
        simp only [Option.some.injEq, Prod.mk.injEq] at hs
        obtain ⟨hr, hs3⟩ := hs
        obtain ⟨hni, hids1⟩ := spawn_step_ids _ _ _ _ _ _ _ _ _ h1 hl
        obtain ⟨hnd, hfresh, hfin⟩ := ih s1 ids1 (id :: l) s2 h2 hids1
        subst hr
        refine ⟨?_, ?_, ?_⟩
        · refine List.nodup_cons.mpr ⟨?_, hnd⟩
          intro hmem
          exact hfresh id hmem (List.mem_cons_self id l)
        · intro i hi
          rcases List.mem_cons.mp hi with h | h
          · rw [h]; exact hni
          · intro hil
            exact hfresh i h (List.mem_cons_of_mem id hil)
        · rw [← hs3, hfin]
          simp

/-- C10: every `MappedList` state reachable from `new()` by `push_back` and
`pop_front` operations has no key bound to an empty list, and on such a
state `pop_front key` returns `None` exactly when the map has no entry for
`key` — a drained mailbox leaves no residual empty entry. -/
theorem mappedList_no_empty_entry (ml : MappedList Nat) (h : ReachableML ml) :
    (∀ p ∈ ml.map, p.2 ≠ []) ∧
    (∀ key, (ml.pop_front key).1 = none ↔ mapLookup ml.map key = none) :=
  ⟨reachable_noEmpty ml h, fun key =>
    pop_none_iff_no_entry ml key (reachable_noEmpty ml h)⟩

theorem mappedList_no_empty_entry_witness :
    ((MappedList.new : MappedList Nat).pop_front 0).1 = none :=
  ((mappedList_no_empty_entry MappedList.new ReachableML.new).2 0).mpr rfl

/-- C2: per-mailbox FIFO.  `push_back` appends at the tail of `key`'s list,
so a batch of sends to `key` extends the pending list in send order, and
successive `pop_front` calls on `key` return the whole pending list in
exactly that order. -/
theorem mailbox_fifo (ml : MappedList Nat) (key : Nat) (msgs : List Nat)
    (h : keysNodup ml.map) :
    pendingMsgs (pushAll ml key msgs) key = pendingMsgs ml key ++ msgs ∧
    (popAll (pushAll ml key msgs) key
        (pendingMsgs ml key ++ msgs).length).1 =
      (pendingMsgs ml key ++ msgs).map some :=
  ⟨pending_pushAll msgs ml key,
   popAll_sound (pendingMsgs ml key ++ msgs) (pushAll ml key msgs) key
     (wfkeys_pushAll msgs ml key h) (pending_pushAll msgs ml key)⟩

theorem mailbox_fifo_witness :
    pendingMsgs (pushAll (MappedList.new : MappedList Nat) 5 [10, 20, 30]) 5
        = pendingMsgs (MappedList.new : MappedList Nat) 5 ++ [10, 20, 30] ∧
    (popAll (pushAll (MappedList.new : MappedList Nat) 5 [10, 20, 30]) 5
        (pendingMsgs (MappedList.new : MappedList Nat) 5
          ++ [10, 20, 30]).length).1 =
      (pendingMsgs (MappedList.new : MappedList Nat) 5
        ++ [10, 20, 30]).map some :=
  mailbox_fifo MappedList.new 5 [10, 20, 30] (by simp [keysNodup, MappedList.new])

/-- C4: the cooperative yield operation.  With a single-member run queue,
`schedule` returns at once with all state unchanged; otherwise it rotates
the front context to the back (round-robin), saves that context's registers
via `set_context`, and — on the fresh save — switches into the context now
at the front of the rotated queue. -/
theorem schedule_round_robin (s : RtState) (c next : Context)
    (rest : List Context) :
    schedule { s with contexts := [c] } =
      some ({ s with contexts := [c] }, SwitchAction.noSwitch) ∧
    schedule { s with contexts := c :: next :: rest } =
      some ({ s with contexts := (next :: rest) ++ [c] },
            SwitchAction.saveSwitch c next) := by
  constructor
  · simp [schedule]
  · simp [schedule]

/-- C7: calling the bootstrap operation while the saved main context is
present fails fatally with the `spawn_from_main is called twice` panic, and
the check runs before any runtime state is modified: the state at the panic
is exactly the state at the call. -/
theorem bootstrap_no_reentry (s : RtState) (r : Registers)
    (func stackSize stackPtr : Nat) (cands : List Nat) :
    spawnFromMainStart func stackSize stackPtr cands
        { s with ctx_main := some r } =
      BootResult.panicked RtError.doubleBootstrap
        { s with ctx_main := some r } := by
  rfl

/-- C8: when control returns to the saved main context, the teardown phase
of `spawn_from_main` leaves exactly the pristine initial state: main
context absent, run queue empty, retired-stack slot drained, and the
mailbox-map, waiting-set and identity-set pointers nulled — whatever the
state was when the run queue emptied. -/
theorem teardown_pristine (s : RtState) :
    (spawnFromMainFinish s).1 = initState := by
  obtain ⟨cm, us, cs, ids, ms, w⟩ := s
  cases us <;> rfl

/-- C9: the retired-stack slot.  `rm_unused_stack` on a pending descriptor
restores the guard page, deallocates the stack and empties the slot; on an
empty slot it changes nothing; in both cases the slot is empty afterwards
(at most one pending deallocation between schedule points).  The trampoline
epilogue of a terminating thread stashes that thread's stack descriptor
into the slot — performing no deallocation itself — whether it switches to
the next context or back to the main context. -/
theorem retired_stack_slot (s : RtState) (ptr : Nat) (l : Layout)
    (ctx next : Context) (rest : List Context) (ids : List Nat)
    (r : Registers) :
    rmUnusedStack { s with unused_stack := some (ptr, l) } =
      ({ s with unused_stack := none },
       [MemAction.unprotect ptr, MemAction.dealloc ptr l]) ∧
    rmUnusedStack { s with unused_stack := none } =
      ({ s with unused_stack := none }, []) ∧
    (rmUnusedStack s).1.unused_stack = none ∧
    entryPointFinish { s with contexts := ctx :: next :: rest,
                              ids := some ids } =
      .ok ({ s with contexts := next :: rest,
                    ids := some (ids.filter (fun i => i != ctx.id)),
                    unused_stack := some (ctx.stack, ctx.stack_layout) },
           .toContext next) ∧
    entryPointFinish { s with ctx_main := some r, contexts := [ctx],
                              ids := some ids } =
      .ok ({ s with ctx_main := some r, contexts := [],
                    ids := some (ids.filter (fun i => i != ctx.id)),
                    unused_stack := some (ctx.stack, ctx.stack_layout) },
           .toMain r) := by
  refine ⟨rfl, rfl, ?_, rfl, rfl⟩
  unfold rmUnusedStack
  cases h : s.unused_stack with
  | none => exact h
  | some d => obtain ⟨p2, l2⟩ := d; rfl

/-- C1: `recv` panics with the deadlock signal if and only if the caller's
mailbox yields no pending message and the caller is the sole runnable
thread (run queue length 1); and whenever the caller's mailbox already
holds a message, `recv` pops it and returns it immediately — no blocking,
no panic, only the mailbox changed. -/
theorem recv_deadlock_iff (s : RtState) (front : Context)
    (rest : List Context) (ml : MappedList Nat)
    (hc : s.contexts = front :: rest) (hm : s.messages = some ml) :
    (recv s = .error .deadlock ↔
      ((ml.pop_front front.id).1 = none ∧ s.contexts.length = 1)) ∧
    (∀ msg ml2, ml.pop_front front.id = (some msg, ml2) →
      recv s = .ok (.ret msg { s with messages := some ml2 })) := by
  obtain ⟨cm, us, cs, ids, ms, w⟩ := s
  dsimp only at hc hm
  subst hc
  subst hm
  constructor
  · rcases hp : ml.pop_front front.id with ⟨v, ml2⟩
    cases v with
    | some msg => simp [recv, hp]
    | none =>
      cases rest with
      | nil => simp [recv, hp]
      | cons next rs =>
        cases w with
        | none => simp [recv, hp]
        | some wm => simp [recv, hp]
  · intro msg ml2 hp
    simp [recv, hp]

theorem recv_deadlock_iff_witness :
    recv { ctx_main := none, unused_stack := none,
           contexts := [⟨Registers.new 0, 0, ⟨PAGE_SIZE, PAGE_SIZE⟩, 0, 1⟩],
           ids := some [1], messages := some MappedList.new,
           waiting := some [] } = .error .deadlock :=
  ((recv_deadlock_iff _ ⟨Registers.new 0, 0, ⟨PAGE_SIZE, PAGE_SIZE⟩, 0, 1⟩
      [] MappedList.new rfl rfl).1).mpr (by constructor <;> rfl)

/-- C5: `send(key, msg)` appends `msg` to `key`'s mailbox via `push_back`
(entry created on demand by `push_back` itself); when a context for `key`
sits in the waiting set it is removed from there and appended to the back
of the run queue; in both cases `send` then invokes `schedule`; and for an
initialized runtime with a nonempty run queue `send` never fails. -/
theorem send_appends_and_wakes (s : RtState) (ml : MappedList Nat)
    (w : List (Nat × Context)) (key msg : Nat) :
    (mapLookup w key = none →
      send key msg { s with messages := some ml, waiting := some w } =
        schedule { s with messages := some (ml.push_back key msg),
                          waiting := some w }) ∧
    (∀ ctx, mapLookup w key = some ctx →
      send key msg { s with messages := some ml, waiting := some w } =
        schedule { s with messages := some (ml.push_back key msg),
                          waiting := some (mapRemove w key),
                          contexts := s.contexts ++ [ctx] }) ∧
    (s.contexts ≠ [] →
      (send key msg { s with messages := some ml,
                             waiting := some w }).isSome = true) := by
  obtain ⟨cm, us, cs, ids, ms, wold⟩ := s
  refine ⟨?_, ?_, ?_⟩
  · intro h
    simp [send, h]
  · intro ctx h
    simp [send, h]
  · intro h
    dsimp only at h
    cases hl : mapLookup w key with
    | none =>
      simp only [send, hl]
      exact schedule_isSome _ (by simpa using h)
    | some ctx =>
      simp only [send, hl]
      exact schedule_isSome _ (by simp)

theorem send_appends_and_wakes_witness :
    send 1 42 { ctx_main := none, unused_stack := none,
                contexts := [⟨Registers.new 0, 0, ⟨PAGE_SIZE, PAGE_SIZE⟩, 0, 1⟩],
                ids := some [1], messages := some MappedList.new,
                waiting := some [] } =
      schedule { ctx_main := none, unused_stack := none,
                 contexts := [⟨Registers.new 0, 0, ⟨PAGE_SIZE, PAGE_SIZE⟩, 0, 1⟩],
                 ids := some [1],
                 messages := some (MappedList.new.push_back 1 42),
                 waiting := some [] } :=
  (send_appends_and_wakes
    { ctx_main := none, unused_stack := none,
      contexts := [⟨Registers.new 0, 0, ⟨PAGE_SIZE, PAGE_SIZE⟩, 0, 1⟩],
      ids := some [1], messages := some MappedList.new,
      waiting := some [] } MappedList.new [] 1 42).1 rfl

/-- C3: `spawn` draws a fresh identity absent from the current identity set
(retrying colliding candidates), inserts it, appends a new context carrying
that identity and the entry function to the back of the run queue, invokes
`schedule`, and returns the identity; consequently any sequence of `spawn`
calls yields pairwise-distinct identities, all distinct from the
identities already live at the start. -/
theorem spawn_fresh_distinct (func stackSize stackPtr : Nat) (s : RtState)
    (l cands : List Nat) (id : Nat) (l2 : List Nat) (ctx : Context)
    (css : List (List Nat)) (retIds : List Nat)
    (h1 : s.ids = some l)
    (h2 : getId cands l = some (id, l2))
    (h3 : contextNew func stackSize id stackPtr = some ctx)
    (h4 : (spawnMany func stackSize stackPtr css s).map Prod.fst
            = some retIds) :
    id ∉ l ∧ l2 = id :: l ∧ ctx.id = id ∧ ctx.entry = func ∧
    spawn func stackSize cands stackPtr s =
      (schedule { s with ids := some (id :: l),
                         contexts := s.contexts ++ [ctx] }).map
        (fun p => (id, p)) ∧
    retIds.Nodup ∧ (∀ i ∈ retIds, i ∉ l) := by
  obtain ⟨hni, hl2⟩ := getId_spec cands l id l2 h2
  match hsm : spawnMany func stackSize stackPtr css s with
  | none => rw [hsm] at h4; simp at h4
  | some (ids0, s3) =>
    rw [hsm] at h4
    simp at h4
    obtain ⟨hnd, hfresh, _⟩ :=
      spawnMany_ids func stackSize stackPtr css s ids0 l s3 hsm h1
    subst h4
    have hid : ctx.id = id ∧ ctx.entry = func := by
      unfold contextNew at h3
      match hL : layoutFromSizeAlign stackSize PAGE_SIZE with
      | none => rw [hL] at h3; simp at h3
      | some lay =>
        rw [hL] at h3
        simp only [Option.some.injEq] at h3
        rw [← h3]
        exact ⟨rfl, rfl⟩
    refine ⟨hni, hl2, hid.1, hid.2, ?_, hnd, hfresh⟩
    unfold spawn
    rw [h1]
    simp only
    rw [h2, hl2]
    simp only
    rw [h3]
    simp only
    cases hsc : schedule { s with ids := some (id :: l),
                                  contexts := s.contexts ++ [ctx] } with
    | none => simp
    | some p => obtain ⟨s9, act9⟩ := p; simp

theorem spawn_fresh_distinct_witness :
    getId [1, 9] [1] = some (9, [9, 1]) ∧
    ((9 : Nat) ∉ [1]) ∧ ([9, 3] : List Nat).Nodup := by
  have h := spawn_fresh_distinct 0 PAGE_SIZE (2 * PAGE_SIZE)
    { ctx_main := none, unused_stack := none,
      contexts := [⟨Registers.new 0, 0, ⟨PAGE_SIZE, PAGE_SIZE⟩, 0, 1⟩],
      ids := some [1], messages := some MappedList.new,
      waiting := some [] }
    [1] [1, 9] 9 [9, 1]
    ⟨Registers.new (2 * PAGE_SIZE + PAGE_SIZE), 2 * PAGE_SIZE,
      ⟨PAGE_SIZE, PAGE_SIZE⟩, 0, 9⟩
    [[1, 9], [9, 3]] [9, 3]
    rfl (by decide) (by decide) (by decide)
  exact ⟨by decide, h.1, h.2.2.2.2.2.1⟩

/-- C6 (counterexample): `stack_size = 100` is neither a positive multiple
of the page size nor large enough to exceed the guard page, yet
`Context::new` builds a context and `spawn` proceeds to build a runnable
thread instead of failing fatally. -/
theorem contextNew_accepts_invalid_size :
    (contextNew 0 100 7 4096).isSome = true ∧
    (spawn 0 100 [9] 4096
      { ctx_main := none, unused_stack := none,
        contexts := [⟨Registers.new 0, 0, ⟨PAGE_SIZE, PAGE_SIZE⟩, 0, 1⟩],
        ids := some [1], messages := some MappedList.new,
        waiting := some [] }).isSome = true := by
  constructor
  · decide
  · decide

/-- C6 (amended): `Context::new` performs no `stack_size` validation.  The
only failure point is the `Layout::from_size_align` unwrap, which rejects
exactly the sizes exceeding `isize::MAX - (PAGE_SIZE - 1)`; every other
`stack_size` — including sizes that are not positive page multiples or do
not exceed the reserved guard page — yields a built context, so an invalid
stack size manifests only later as a guard-page fault when the thread runs,
not as a fatal error at spawn time. -/
theorem contextNew_layout_only (func stackSize id stackPtr : Nat) :
    contextNew func stackSize id stackPtr = none ↔
      isizeMaxNat - (PAGE_SIZE - 1) < stackSize := by
  have hp : isPow2 PAGE_SIZE = true := by decide
  by_cases hs : stackSize ≤ isizeMaxNat - (PAGE_SIZE - 1)
  · simp [contextNew, layoutFromSizeAlign, hp, hs]
  · simp [contextNew, layoutFromSizeAlign, hp, hs]
    omega
